import Mathlib

/-!
Shallow embedding of the PE object-file adapter (`src/pe.rs`) of
susytech/susy-object, together with theorems checking the specification's
claims against it.

Machine integers are modelled as `Nat`: all the widenings in the source
(`u32 → u64`, `as usize`) are value-preserving, and none of the arithmetic
in the adapter wraps.  Byte buffers are `List Nat`.  Rust slice indexing
(`&data[offset..][..size]`), which panics when out of range, is embedded as
a total `Option`-returning operation, with `none` for the out-of-range
branch.
-/

/-- Semantic section kind, as used by `PeSection::kind` in the source. -/
inductive SectionKind where
  | text
  | data
  | uninitializedData
  | unknown
deriving DecidableEq, Repr

/-- Symbol kind.  The PE adapter only ever produces `unknown`. -/
inductive SymbolKind where
  | unknown
deriving DecidableEq, Repr

/-- A parser-produced string: either a borrow into the image buffer or an
owned (synthesized) string, mirroring `Cow<'data, str>`. -/
inductive CowStr where
  | borrowed (s : String)
  | owned (s : String)
deriving DecidableEq, Repr

/-- A raw section-table entry as produced by the external PE parser.
`name` models the result of the parser's `name()` accessor, with `none`
for a name that fails to decode (`Result::ok`).  The numeric fields are
the 32-bit fields the adapter reads. -/
structure SectionTable where
  name : Option String
  virtual_address : Nat
  virtual_size : Nat
  pointer_to_raw_data : Nat
  size_of_raw_data : Nat
  characteristics : Nat
deriving DecidableEq, Repr

/-- A raw export as produced by the external PE parser: optional borrowed
name and an RVA. -/
structure ExportEntry where
  name : Option String
  rva : Nat
deriving DecidableEq, Repr

/-- A raw import as produced by the external PE parser: a name that is
either borrowed from the image buffer or owned/synthesized. -/
structure ImportEntry where
  name : CowStr
deriving DecidableEq, Repr

/-- The Windows-specific optional-header fields the adapter reads. -/
structure OptionalHeader where
  section_alignment : Nat
deriving DecidableEq, Repr

/-- The parsed PE structure (the external parser's output), restricted to
the fields the adapter consumes. -/
structure PE where
  is_64 : Bool
  optional_header : Option OptionalHeader
  sections : List SectionTable
  exports : List ExportEntry
  imports : List ImportEntry
  entry : Nat
deriving DecidableEq, Repr

/-- `PeFile`: the parsed PE structure together with the borrowed image
buffer. -/
structure PeFile where
  pe : PE
  data : List Nat
deriving DecidableEq, Repr

/-- The uniform `Symbol` record of the object-file model. -/
structure ObjSymbol where
  kind : SymbolKind
  section_index : Option Nat
  undefined : Bool
  global : Bool
  name : Option String
  address : Nat
  size : Nat
deriving DecidableEq, Repr

/-- `SymbolMap`: an owned vector of symbols. -/
structure SymbolMap where
  symbols : List ObjSymbol
deriving DecidableEq, Repr

def IMAGE_SCN_CNT_CODE : Nat := 0x00000020

def IMAGE_SCN_CNT_INITIALIZED_DATA : Nat := 0x00000040

def IMAGE_SCN_CNT_UNINITIALIZED_DATA : Nat := 0x00000080

def IMAGE_SCN_MEM_EXECUTE : Nat := 0x20000000

/-- Rust range-from slicing `&b[i..]`: defined when `i ≤ b.len()`,
otherwise the out-of-range branch (`none`). -/
def sliceFrom (b : List Nat) (i : Nat) : Option (List Nat) :=
  if i ≤ b.length then some (b.drop i) else none

/-- Rust range-to slicing `&b[..n]`: defined when `n ≤ b.len()`,
otherwise the out-of-range branch (`none`). -/
def sliceTake (b : List Nat) (n : Nat) : Option (List Nat) :=
  if n ≤ b.length then some (b.take n) else none

/-- Modelled from the spec: the shared helper `crate::data_range` (spec
§4.5) lives outside the sources under consideration.  Per the spec: return
`b[addr-base .. addr-base+len]` iff `addr ≥ base` and
`addr+len ≤ base+b.len()`, else none; subtraction is performed only after
the inequality checks, and the arithmetic is checked, so over `Nat` the
ideal comparisons below are exactly its semantics. -/
def crateDataRange (b : List Nat) (base addr len : Nat) : Option (List Nat) :=
  if base ≤ addr ∧ addr + len ≤ base + b.length then
    some ((b.drop (addr - base)).take len)
  else none

/-- Modelled from the spec: `SymbolMap::filter` is supplied by the shared
framework, outside the sources under consideration.  Per the spec (§3),
it keeps symbols "with nonempty names and nonzero addresses". -/
def SymbolMap.keep (s : ObjSymbol) : Bool :=
  (match s.name with
   | some n => decide (n ≠ "")
   | none => false)
  && decide (s.address ≠ 0)

/-- A loadable-segment view of a raw section (`PeSegment`). -/
structure PeSegment where
  file : PeFile
  sect : SectionTable
deriving DecidableEq, Repr

/-- A section view of a raw section (`PeSection`), carrying its dense
index. -/
structure PeSection where
  file : PeFile
  index : Nat
  sect : SectionTable
deriving DecidableEq, Repr

/-- The symbol iterator state: `index` cursor plus the remaining exports
and imports (`PeSymbolIterator`). -/
structure PeSymbolIterator where
  index : Nat
  exports : List ExportEntry
  imports : List ImportEntry
deriving DecidableEq, Repr

/-- `PeFile::section_alignment`: the optional header's
`section_alignment`, defaulting to `0x1000` when the optional header is
absent. -/
def PeFile.section_alignment (f : PeFile) : Nat :=
  (f.pe.optional_header.map (fun h => h.section_alignment)).getD 0x1000

/-- `Object::segments` for `PeFile`: one segment per raw section, in raw
table order. -/
def PeFile.segments (f : PeFile) : List PeSegment :=
  f.pe.sections.map (fun s => { file := f, sect := s })

/-- `Object::sections` for `PeFile`: one section per raw section, in raw
table order, with its 0-based enumeration index. -/
def PeFile.sections (f : PeFile) : List PeSection :=
  f.pe.sections.enum.map (fun p => { file := f, index := p.1, sect := p.2 })

/-- `ObjectSection::name` for `PeSection`: the parser's name decoding,
dropped on error. -/
def PeSection.name (s : PeSection) : Option String :=
  s.sect.name

/-- `Object::section_by_name` for `PeFile`: the first section whose
`name()` equals the requested string. -/
def PeFile.section_by_name (f : PeFile) (n : String) : Option PeSection :=
  f.sections.find? (fun s => decide (s.name = some n))

/-- `Object::section_by_index` for `PeFile`: the first section whose
`index()` equals the requested index. -/
def PeFile.section_by_index (f : PeFile) (i : Nat) : Option PeSection :=
  f.sections.find? (fun s => decide (s.index = i))

/-- `Object::symbol_by_index` for `PeFile`: always absent (COFF symbol
decoding is a known gap). -/
def PeFile.symbol_by_index (_f : PeFile) (_i : Nat) : Option ObjSymbol :=
  none

/-- `Object::symbols` for `PeFile`: an iterator over empty export
streams and empty import streams (COFF symbol decoding is a known gap). -/
def PeFile.symbols (_f : PeFile) : PeSymbolIterator :=
  { index := 0, exports := [], imports := [] }

/-- `Object::dynamic_symbols` for `PeFile`: an iterator over the parsed
exports then imports. -/
def PeFile.dynamic_symbols (f : PeFile) : PeSymbolIterator :=
  { index := 0, exports := f.pe.exports, imports := f.pe.imports }

/-- One step of `PeSymbolIterator::next`: an export if one remains, else
an import if one remains, else exhausted. -/
def PeSymbolIterator.step (it : PeSymbolIterator) :
    Option ((Nat × ObjSymbol) × PeSymbolIterator) :=
  match it.exports with
  | e :: rest =>
    some ((it.index,
           { kind := SymbolKind.unknown
             section_index := none
             undefined := false
             global := true
             name := e.name
             address := e.rva
             size := 0 }),
          { index := it.index + 1, exports := rest, imports := it.imports })
  | [] =>
    match it.imports with
    | i :: rest =>
      some ((it.index,
             { kind := SymbolKind.unknown
               section_index := none
               undefined := true
               global := true
               name := match i.name with
                 | CowStr.borrowed n => some n
                 | _ => none
               address := 0
               size := 0 }),
            { index := it.index + 1, exports := [], imports := rest })
    | [] => none

/-- Drain the iterator with the given fuel, collecting the yielded
`(index, symbol)` pairs. -/
def PeSymbolIterator.itemsAux : Nat → PeSymbolIterator → List (Nat × ObjSymbol)
  | 0, _ => []
  | fuel + 1, it =>
    match it.step with
    | some (x, it') => x :: PeSymbolIterator.itemsAux fuel it'
    | none => []

/-- All the `(index, symbol)` pairs the iterator yields. -/
def PeSymbolIterator.items (it : PeSymbolIterator) : List (Nat × ObjSymbol) :=
  PeSymbolIterator.itemsAux (it.exports.length + it.imports.length) it

/-- `Object::symbol_map` for `PeFile`: collect `symbols()` (dropping the
indices), apply the shared filter, sort ascending by address. -/
def PeFile.symbol_map (f : PeFile) : SymbolMap :=
  { symbols :=
      ((f.symbols.items.map Prod.snd).filter SymbolMap.keep).mergeSort
        (fun a b => decide (a.address ≤ b.address)) }

/-- `ObjectSegment::address`: the widened `virtual_address`. -/
def PeSegment.address (s : PeSegment) : Nat :=
  s.sect.virtual_address

/-- `ObjectSegment::size`: the widened `virtual_size`. -/
def PeSegment.size (s : PeSegment) : Nat :=
  s.sect.virtual_size

/-- `ObjectSegment::align`: the image-wide section alignment. -/
def PeSegment.align (s : PeSegment) : Nat :=
  s.file.section_alignment

/-- `ObjectSegment::data`:
`&file.data[pointer_to_raw_data..][..min(virtual_size, size_of_raw_data)]`,
with the out-of-range branches made explicit. -/
def PeSegment.data (s : PeSegment) : Option (List Nat) :=
  (sliceFrom s.file.data s.sect.pointer_to_raw_data).bind
    (fun b => sliceTake b (min s.sect.virtual_size s.sect.size_of_raw_data))

/-- `ObjectSegment::data_range`: the shared clip helper applied to this
segment's data and address. -/
def PeSegment.data_range (s : PeSegment) (addr len : Nat) :
    Option (List Nat) :=
  s.data.bind (fun b => crateDataRange b s.address addr len)

/-- `ObjectSegment::name`: the parser's name decoding, dropped on error. -/
def PeSegment.name (s : PeSegment) : Option String :=
  s.sect.name

/-- `PeSection::raw_data`: same slicing as `PeSegment::data`. -/
def PeSection.raw_data (s : PeSection) : Option (List Nat) :=
  (sliceFrom s.file.data s.sect.pointer_to_raw_data).bind
    (fun b => sliceTake b (min s.sect.virtual_size s.sect.size_of_raw_data))

/-- `ObjectSection::address`: the widened `virtual_address`. -/
def PeSection.address (s : PeSection) : Nat :=
  s.sect.virtual_address

/-- `ObjectSection::size`: the widened `virtual_size`. -/
def PeSection.size (s : PeSection) : Nat :=
  s.sect.virtual_size

/-- `ObjectSection::align`: the image-wide section alignment. -/
def PeSection.align (s : PeSection) : Nat :=
  s.file.section_alignment

/-- `ObjectSection::data`: `Cow::from(raw_data())`, i.e. the raw bytes. -/
def PeSection.data (s : PeSection) : Option (List Nat) :=
  s.raw_data

/-- `ObjectSection::data_range`: the shared clip helper applied to this
section's raw data and address. -/
def PeSection.data_range (s : PeSection) (addr len : Nat) :
    Option (List Nat) :=
  s.raw_data.bind (fun b => crateDataRange b s.address addr len)

/-- `ObjectSection::kind`: Text when `CNT_CODE` or `MEM_EXECUTE` is set,
else Data when `CNT_INITIALIZED_DATA`, else UninitializedData when
`CNT_UNINITIALIZED_DATA`, else Unknown. -/
def PeSection.kind (s : PeSection) : SectionKind :=
  if s.sect.characteristics &&& (IMAGE_SCN_CNT_CODE ||| IMAGE_SCN_MEM_EXECUTE) ≠ 0 then
    SectionKind.text
  else if s.sect.characteristics &&& IMAGE_SCN_CNT_INITIALIZED_DATA ≠ 0 then
    SectionKind.data
  else if s.sect.characteristics &&& IMAGE_SCN_CNT_UNINITIALIZED_DATA ≠ 0 then
    SectionKind.uninitializedData
  else
    SectionKind.unknown

/-- The symbol record the iterator builds for an export, as the spec
describes it (§4.4 step 1). -/
def exportObjSymbol (e : ExportEntry) : ObjSymbol :=
  { kind := SymbolKind.unknown
    section_index := none
    undefined := false
    global := true
    name := e.name
    address := e.rva
    size := 0 }

/-- The symbol record the iterator builds for an import, as the spec
describes it (§4.4 step 2). -/
def importObjSymbol (i : ImportEntry) : ObjSymbol :=
  { kind := SymbolKind.unknown
    section_index := none
    undefined := true
    global := true
    name := match i.name with
      | CowStr.borrowed n => some n
      | _ => none
    address := 0
    size := 0 }

/-- Spec-side description of `section_by_name`: the first section of the
list whose `name()` equals the requested string, else none. -/
def firstSectionNamed (n : String) : List PeSection → Option PeSection
  | [] => none
  | s :: rest => if s.name = some n then some s else firstSectionNamed n rest

/-- Concrete export `Foo` at RVA `0x2000` (spec scenario S4). -/
def fooExport : ExportEntry := { name := some "Foo", rva := 0x2000 }

/-- Concrete export `Bar` at RVA `0x2010` (spec scenario S4). -/
def barExport : ExportEntry := { name := some "Bar", rva := 0x2010 }

/-- Concrete import `Baz` with a borrowed name (spec scenario S4). -/
def bazImport : ImportEntry := { name := CowStr.borrowed "Baz" }

/-- A concrete parsed image with exports `Foo`, `Bar` and import `Baz`
(spec scenario S4). -/
def s4File : PeFile :=
  { pe :=
      { is_64 := true
        optional_header := none
        sections := []
        exports := [fooExport, barExport]
        imports := [bazImport]
        entry := 0 }
    data := [] }

/-- A concrete raw section used as a witness input: file offset 1,
virtual size 2, raw size 3, base RVA 16. -/
def wSect : SectionTable :=
  { name := some ".text"
    virtual_address := 16
    virtual_size := 2
    pointer_to_raw_data := 1
    size_of_raw_data := 3
    characteristics := 0x20 }

/-- A concrete parsed image with a 4-byte buffer holding `wSect`. -/
def wFile : PeFile :=
  { pe :=
      { is_64 := true
        optional_header := none
        sections := [wSect]
        exports := []
        imports := []
        entry := 0 }
    data := [10, 11, 12, 13] }

theorem natLorEqZero (x y : Nat) : x ||| y = 0 ↔ x = 0 ∧ y = 0 := by
  constructor
  · intro h
    constructor <;>
    · apply Nat.eq_of_testBit_eq
      intro k
      have hk := congrArg (fun n => Nat.testBit n k) h
      simp [Nat.testBit_lor] at hk
      simp [hk.1, hk.2]
  · rintro ⟨rfl, rfl⟩
    rfl

theorem natLandLorDistrib (c a b : Nat) :
    c &&& (a ||| b) = (c &&& a) ||| (c &&& b) := by
  apply Nat.eq_of_testBit_eq
  intro k
  simp [Nat.testBit_land, Nat.testBit_lor, Bool.and_or_distrib_left]

theorem natLandTwoPowNe (c i : Nat) :
    (c &&& 2 ^ i ≠ 0) ↔ c.testBit i = true := by
  rw [Nat.and_two_pow]
  cases h : c.testBit i
  · simp
  · simp

theorem maskTextIff (c : Nat) :
    (c &&& (IMAGE_SCN_CNT_CODE ||| IMAGE_SCN_MEM_EXECUTE) ≠ 0) ↔
      (c.testBit 5 = true ∨ c.testBit 29 = true) := by
  have h1 : (IMAGE_SCN_CNT_CODE ||| IMAGE_SCN_MEM_EXECUTE : Nat) = 2 ^ 5 ||| 2 ^ 29 := by
    decide
  rw [h1, natLandLorDistrib, ne_eq, natLorEqZero, not_and_or, ← ne_eq, ← ne_eq,
    natLandTwoPowNe, natLandTwoPowNe]

theorem maskDataIff (c : Nat) :
    (c &&& IMAGE_SCN_CNT_INITIALIZED_DATA ≠ 0) ↔ c.testBit 6 = true := by
  have h1 : (IMAGE_SCN_CNT_INITIALIZED_DATA : Nat) = 2 ^ 6 := by decide
  rw [h1, natLandTwoPowNe]

theorem maskUninitIff (c : Nat) :
    (c &&& IMAGE_SCN_CNT_UNINITIALIZED_DATA ≠ 0) ↔ c.testBit 7 = true := by
  have h1 : (IMAGE_SCN_CNT_UNINITIALIZED_DATA : Nat) = 2 ^ 7 := by decide
  rw [h1, natLandTwoPowNe]

theorem symbolMapSymbolsNil (f : PeFile) : f.symbol_map.symbols = [] := by
  simp [PeFile.symbol_map, PeFile.symbols, PeSymbolIterator.items,
    PeSymbolIterator.itemsAux, List.mergeSort_nil]

/-- C9: for every parsed image, `symbols()` yields no items and
`symbol_by_index(i)` is `none` for every `i`; both are normal absent
results, not errors. -/
theorem c9_symbols_empty (f : PeFile) (i : Nat) :
    f.symbols.items = [] ∧ f.symbol_by_index i = none :=
  ⟨rfl, rfl⟩

/-- C1 counterexample: on the image of spec scenario S4 (exports `Foo` at
`0x2000` and `Bar` at `0x2010`, one borrowed-name import `Baz`),
`symbol_map().symbols` is NOT the two export symbols: `symbol_map` draws
from the always-empty `symbols()`, so it is empty. -/
theorem c1_symbol_map_counterexample :
    ¬ (s4File.symbol_map.symbols =
        [exportObjSymbol fooExport, exportObjSymbol barExport]) := by
  rw [symbolMapSymbolsNil]
  simp

/-- C1 (amended): for every parsed image, `symbol_map().symbols` is empty:
`symbol_map` collects from `symbols()` — the always-empty COFF iterator —
not from `dynamic_symbols()`, so the filter and sort act on an empty
vector. -/
theorem c1_symbol_map_empty (f : PeFile) : f.symbol_map.symbols = [] :=
  symbolMapSymbolsNil f

theorem itemsAuxEnum :
    ∀ (es : List ExportEntry) (il : List ImportEntry) (k fuel : Nat),
      es.length + il.length ≤ fuel →
      PeSymbolIterator.itemsAux fuel ⟨k, es, il⟩ =
        List.enumFrom k (es.map exportObjSymbol ++ il.map importObjSymbol) := by
  intro es
  induction es with
  | nil =>
    intro il
    induction il with
    | nil =>
      intro k fuel _
      cases fuel <;> simp [PeSymbolIterator.itemsAux, PeSymbolIterator.step]
    | cons i il ih =>
      intro k fuel hf
      cases fuel with
      | zero => simp at hf
      | succ f =>
        simp only [PeSymbolIterator.itemsAux, PeSymbolIterator.step]
        rw [ih (k + 1) f (by simp at hf ⊢; omega)]
        simp [List.enumFrom_cons, importObjSymbol]
  | cons e es ih =>
    intro il k fuel hf
    cases fuel with
    | zero => simp at hf
    | succ f =>
      simp only [PeSymbolIterator.itemsAux, PeSymbolIterator.step]
      rw [ih il (k + 1) f (by simp at hf ⊢; omega)]
      simp [List.enumFrom_cons, exportObjSymbol]

/-- C2: `dynamic_symbols()` yields one symbol per export in raw order,
then one per import in raw order, with dense indices counting up from 0;
export symbols carry kind Unknown, no section index, `undefined = false`,
`global = true`, the export's name, the export's RVA and size 0; import
symbols carry kind Unknown, no section index, `undefined = true`,
`global = true`, address 0, size 0, and a name exactly when the
imported name is a borrow into the image buffer. -/
theorem c2_dynamic_symbols_spec (f : PeFile) :
    f.dynamic_symbols.items =
      (f.pe.exports.map exportObjSymbol ++ f.pe.imports.map importObjSymbol).enum
    ∧ f.dynamic_symbols.items.map Prod.fst =
        List.range (f.pe.exports.length + f.pe.imports.length)
    ∧ (∀ e : ExportEntry, exportObjSymbol e =
        { kind := SymbolKind.unknown, section_index := none, undefined := false,
          global := true, name := e.name, address := e.rva, size := 0 })
    ∧ (∀ s : String,
        (importObjSymbol { name := CowStr.borrowed s }).name = some s)
    ∧ (∀ s : String, (importObjSymbol { name := CowStr.owned s }).name = none)
    ∧ (∀ i : ImportEntry, importObjSymbol i =
        { kind := SymbolKind.unknown, section_index := none, undefined := true,
          global := true, name := (importObjSymbol i).name, address := 0,
          size := 0 }) := by
  have h := itemsAuxEnum f.pe.exports f.pe.imports 0
    (f.pe.exports.length + f.pe.imports.length) le_rfl
  have h0 : f.dynamic_symbols.items =
      (f.pe.exports.map exportObjSymbol ++ f.pe.imports.map importObjSymbol).enum := by
    simpa [PeFile.dynamic_symbols, PeSymbolIterator.items, List.enum] using h
  refine ⟨h0, ?_, fun e => rfl, fun s => rfl, fun s => rfl, fun i => rfl⟩
  rw [h0, List.enum_map_fst]
  simp

/-- C5: `kind()` follows the precedence, first match winning: Text when
bit `0x20` (CNT_CODE) or bit `0x20000000` (MEM_EXECUTE) is set, else Data
when bit `0x40` (CNT_INITIALIZED_DATA), else UninitializedData when bit
`0x80` (CNT_UNINITIALIZED_DATA), else Unknown. -/
theorem c5_kind_precedence (f : PeFile) (idx : Nat) (st : SectionTable) :
    (PeSection.mk f idx st).kind =
      if st.characteristics.testBit 5 = true ∨ st.characteristics.testBit 29 = true then
        SectionKind.text
      else if st.characteristics.testBit 6 = true then
        SectionKind.data
      else if st.characteristics.testBit 7 = true then
        SectionKind.uninitializedData
      else
        SectionKind.unknown := by
  have ht := maskTextIff st.characteristics
  have hd := maskDataIff st.characteristics
  have hu := maskUninitIff st.characteristics
  unfold PeSection.kind
  by_cases h1 : st.characteristics &&& (IMAGE_SCN_CNT_CODE ||| IMAGE_SCN_MEM_EXECUTE) ≠ 0
  · rw [if_pos h1, if_pos (ht.mp h1)]
  · rw [if_neg h1, if_neg (fun hc => h1 (ht.mpr hc))]
    by_cases h2 : st.characteristics &&& IMAGE_SCN_CNT_INITIALIZED_DATA ≠ 0
    · rw [if_pos h2, if_pos (hd.mp h2)]
    · rw [if_neg h2, if_neg (fun hc => h2 (hd.mpr hc))]
      by_cases h3 : st.characteristics &&& IMAGE_SCN_CNT_UNINITIALIZED_DATA ≠ 0
      · rw [if_pos h3, if_pos (hu.mp h3)]
      · rw [if_neg h3, if_neg (fun hc => h3 (hu.mpr hc))]

/-- C8: `segments()` and `sections()` yield the same number of items —
one per raw section, in raw table order — and positionwise share
`address()`, `size()` and `align()`. -/
theorem c8_segments_sections_agree (f : PeFile) :
    f.segments.length = f.pe.sections.length
    ∧ f.sections.length = f.pe.sections.length
    ∧ f.segments.map PeSegment.address = f.sections.map PeSection.address
    ∧ f.segments.map PeSegment.size = f.sections.map PeSection.size
    ∧ f.segments.map PeSegment.align = f.sections.map PeSection.align := by
  have key : ∀ g : SectionTable → Nat,
      f.pe.sections.enum.map (fun p => g p.2) = f.pe.sections.map g := by
    intro g
    rw [show (fun p : Nat × SectionTable => g p.2) = g ∘ Prod.snd from rfl,
      ← List.map_map, List.enum_map_snd]
  refine ⟨by simp [PeFile.segments],
    by simp [PeFile.sections, List.enum_length], ?_, ?_, ?_⟩
  · have h1 : f.segments.map PeSegment.address =
        f.pe.sections.map (fun s => s.virtual_address) := by
      simp only [PeFile.segments, List.map_map]; rfl
    have h2 : f.sections.map PeSection.address =
        f.pe.sections.enum.map (fun p => p.2.virtual_address) := by
      simp only [PeFile.sections, List.map_map]; rfl
    rw [h1, h2, key]
  · have h1 : f.segments.map PeSegment.size =
        f.pe.sections.map (fun s => s.virtual_size) := by
      simp only [PeFile.segments, List.map_map]; rfl
    have h2 : f.sections.map PeSection.size =
        f.pe.sections.enum.map (fun p => p.2.virtual_size) := by
      simp only [PeFile.sections, List.map_map]; rfl
    rw [h1, h2, key]
  · have h1 : f.segments.map PeSegment.align =
        f.pe.sections.map (fun _ => f.section_alignment) := by
      simp only [PeFile.segments, List.map_map]; rfl
    have h2 : f.sections.map PeSection.align =
        f.pe.sections.enum.map (fun _ => f.section_alignment) := by
      simp only [PeFile.sections, List.map_map]; rfl
    rw [h1, h2, key (fun _ => f.section_alignment)]

theorem findIndexEnum (f : PeFile) :
    ∀ (l : List SectionTable) (k i : Nat),
      ((l.enumFrom k).map
          (fun p => PeSection.mk f p.1 p.2)).find?
          (fun s => decide (s.index = i)) =
        if k ≤ i then
          ((l.enumFrom k).map (fun p => PeSection.mk f p.1 p.2)).get? (i - k)
        else none := by
  intro l
  induction l with
  | nil => intro k i; simp
  | cons s l ih =>
    intro k i
    rw [List.enumFrom_cons]
    by_cases hk : k = i
    · subst hk
      simp [List.find?_cons]
    · simp only [List.map_cons, List.find?_cons]
      have hpred : (decide ((PeSection.mk f k s).index = i)) = false := by
        simp [hk]
      rw [hpred]
      simp only []
      rw [ih (k + 1) i]
      by_cases hki : k ≤ i
      · have hk1 : k + 1 ≤ i := by omega
        rw [if_pos hk1, if_pos hki]
        have hsub : i - k = (i - (k + 1)) + 1 := by omega
        rw [hsub]
        rfl
      · have hk1 : ¬ (k + 1 ≤ i) := by omega
        rw [if_neg hk1, if_neg hki]

/-- C6: the i-th Section yielded by `sections()` has `index()` equal to
`i`, and `section_by_index(i)` returns exactly that i-th Section when
`i` is below the raw section count, and `none` otherwise. -/
theorem c6_section_by_index_spec (f : PeFile) (i : Nat) :
    f.section_by_index i = f.sections.get? i
    ∧ f.sections.map PeSection.index = List.range f.pe.sections.length
    ∧ f.sections.length = f.pe.sections.length
    ∧ (f.sections.get? i = none ↔ f.pe.sections.length ≤ i) := by
  refine ⟨?_, ?_, by simp [PeFile.sections, List.enum_length], ?_⟩
  · have h := findIndexEnum f f.pe.sections 0 i
    rw [if_pos (Nat.zero_le i)] at h
    simpa [PeFile.section_by_index, PeFile.sections, List.enum] using h
  · have h1 : f.sections.map PeSection.index =
        f.pe.sections.enum.map (fun p => p.1) := by
      simp only [PeFile.sections, List.map_map]; rfl
    rw [h1]
    have h2 : (fun p : Nat × SectionTable => p.1) = Prod.fst := rfl
    rw [h2, List.enum_map_fst]
  · rw [List.get?_eq_none]
    simp [PeFile.sections, List.enum_length]

theorem findNamedEq (n : String) :
    ∀ l : List PeSection,
      l.find? (fun s => decide (s.name = some n)) = firstSectionNamed n l := by
  intro l
  induction l with
  | nil => simp [firstSectionNamed]
  | cons s l ih =>
    rw [List.find?_cons]
    by_cases h : s.name = some n
    · simp [firstSectionNamed, h]
    · simp only [firstSectionNamed, if_neg h, ← ih]
      have hpred : (decide (s.name = some n)) = false := by simp [h]
      rw [hpred]

/-- C7: `section_by_name(n)` returns the first Section in `sections()`
iteration order whose `name()` equals `Some(n)`, and `none` when no
section's name decodes to `n`. -/
theorem c7_section_by_name_spec (f : PeFile) (n : String) :
    f.section_by_name n = firstSectionNamed n f.sections
    ∧ (f.section_by_name n = none ↔
        ∀ s ∈ f.sections, s.name ≠ some n) := by
  constructor
  · exact findNamedEq n f.sections
  · rw [PeFile.section_by_name, List.find?_eq_none]
    constructor
    · intro h s hs
      have := h s hs
      simpa using this
    · intro h s hs
      simp [h s hs]

/-- C4: when `pointer_to_raw_data + min(virtual_size, size_of_raw_data)`
fits in the image buffer, `data()` (Segment) and `raw_data()` (Section)
return the buffer slice starting at file offset `pointer_to_raw_data`
with length exactly `min(virtual_size, size_of_raw_data)`. -/
theorem c4_data_slice (f : PeFile) (idx : Nat) (st : SectionTable)
    (h : st.pointer_to_raw_data + min st.virtual_size st.size_of_raw_data ≤
      f.data.length) :
    (PeSegment.mk f st).data =
      some ((f.data.drop st.pointer_to_raw_data).take
        (min st.virtual_size st.size_of_raw_data))
    ∧ (PeSection.mk f idx st).raw_data =
      some ((f.data.drop st.pointer_to_raw_data).take
        (min st.virtual_size st.size_of_raw_data))
    ∧ ((f.data.drop st.pointer_to_raw_data).take
        (min st.virtual_size st.size_of_raw_data)).length =
      min st.virtual_size st.size_of_raw_data := by
  have h1 : st.pointer_to_raw_data ≤ f.data.length := by omega
  have h2 : min st.virtual_size st.size_of_raw_data ≤
      (f.data.drop st.pointer_to_raw_data).length := by
    rw [List.length_drop]; omega
  refine ⟨?_, ?_, ?_⟩
  · simp [PeSegment.data, sliceFrom, sliceTake, h1, h2]
    omega
  · simp [PeSection.raw_data, sliceFrom, sliceTake, h1, h2]
    omega
  · rw [List.length_take, List.length_drop]; omega

/-- C4 witness: the theorem instantiated at the concrete image `wFile`
and raw section `wSect`. -/
theorem c4_data_slice_witness :
    (PeSegment.mk wFile wSect).data =
      some ((wFile.data.drop wSect.pointer_to_raw_data).take
        (min wSect.virtual_size wSect.size_of_raw_data))
    ∧ (PeSection.mk wFile 0 wSect).raw_data =
      some ((wFile.data.drop wSect.pointer_to_raw_data).take
        (min wSect.virtual_size wSect.size_of_raw_data))
    ∧ ((wFile.data.drop wSect.pointer_to_raw_data).take
        (min wSect.virtual_size wSect.size_of_raw_data)).length =
      min wSect.virtual_size wSect.size_of_raw_data :=
  c4_data_slice wFile 0 wSect (by decide)

/-- C10: the slicing inside `data()`/`raw_data()` is in bounds exactly
when `pointer_to_raw_data + min(virtual_size, size_of_raw_data)` fits in
the image buffer: under that precondition the out-of-range branch of the
embedded indexing is unreachable, and without it the code — which makes
no bounds check of its own — reaches that branch. -/
theorem c10_data_in_bounds_iff (f : PeFile) (idx : Nat) (st : SectionTable) :
    ((PeSegment.mk f st).data.isSome = true ↔
      st.pointer_to_raw_data + min st.virtual_size st.size_of_raw_data ≤
        f.data.length)
    ∧ ((PeSection.mk f idx st).raw_data.isSome = true ↔
      st.pointer_to_raw_data + min st.virtual_size st.size_of_raw_data ≤
        f.data.length) := by
  constructor
  · simp only [PeSegment.data, sliceFrom, sliceTake]
    by_cases h1 : st.pointer_to_raw_data ≤ f.data.length
    · rw [if_pos h1]
      by_cases h2 : min st.virtual_size st.size_of_raw_data ≤
          (f.data.drop st.pointer_to_raw_data).length
      · rw [List.length_drop] at h2
        simp [h2]
        omega
      · rw [List.length_drop] at h2
        simp [h2]
        omega
    · rw [if_neg h1]
      simp
      omega
  · simp only [PeSection.raw_data, sliceFrom, sliceTake]
    by_cases h1 : st.pointer_to_raw_data ≤ f.data.length
    · rw [if_pos h1]
      by_cases h2 : min st.virtual_size st.size_of_raw_data ≤
          (f.data.drop st.pointer_to_raw_data).length
      · rw [List.length_drop] at h2
        simp [h2]
        omega
      · rw [List.length_drop] at h2
        simp [h2]
        omega
    · rw [if_neg h1]
      simp
      omega

/-- C3: for a Segment or Section whose backing bytes are `b`,
`data_range(addr, len)` returns the subslice
`b[addr - address() .. addr - address() + len]` exactly when
`addr ≥ address()` and `addr + len ≤ address() + b.len()`, and `none`
otherwise; in the successful case the computed slice offsets stay within
`b`, so the checked-then-subtract arithmetic never overflows for 64-bit
inputs. -/
theorem c3_data_range_clip (f : PeFile) (idx : Nat) (st : SectionTable)
    (addr len : Nat) (b : List Nat)
    (hdata : (PeSegment.mk f st).data = some b) :
    ((PeSegment.mk f st).data_range addr len =
      if (PeSegment.mk f st).address ≤ addr ∧
          addr + len ≤ (PeSegment.mk f st).address + b.length then
        some ((b.drop (addr - (PeSegment.mk f st).address)).take len)
      else none)
    ∧ ((PeSection.mk f idx st).data_range addr len =
      if (PeSection.mk f idx st).address ≤ addr ∧
          addr + len ≤ (PeSection.mk f idx st).address + b.length then
        some ((b.drop (addr - (PeSection.mk f idx st).address)).take len)
      else none)
    ∧ (∀ r, (PeSegment.mk f st).data_range addr len = some r →
        r.length = len ∧
        (addr - (PeSegment.mk f st).address) + len ≤ b.length) := by
  have hsec : (PeSection.mk f idx st).raw_data = some b := hdata
  have hseg1 : (PeSegment.mk f st).data_range addr len =
      crateDataRange b st.virtual_address addr len := by
    rw [PeSegment.data_range, hdata]
    rfl
  have hsec1 : (PeSection.mk f idx st).data_range addr len =
      crateDataRange b st.virtual_address addr len := by
    rw [PeSection.data_range, hsec]
    rfl
  refine ⟨?_, ?_, ?_⟩
  · rw [hseg1, crateDataRange]
    rfl
  · rw [hsec1, crateDataRange]
    rfl
  · intro r hr
    rw [hseg1, crateDataRange] at hr
    split at hr
    · next hcond =>
      rw [Option.some_inj] at hr
      subst hr
      obtain ⟨h1, h2⟩ := hcond
      constructor
      · rw [List.length_take, List.length_drop]
        show min len _ = len
        omega
      · show addr - st.virtual_address + len ≤ b.length
        omega
    · exact absurd hr (by simp)

/-- C3 witness: the Segment conjunct instantiated on the concrete image
`wFile`, evaluated at `addr = 16`, `len = 2`. -/
theorem c3_data_range_clip_witness :
    (PeSegment.mk wFile wSect).data_range 16 2 = some [11, 12] := by
  have h := (c3_data_range_clip wFile 0 wSect 16 2 [11, 12] (by decide)).1
  rw [h]
  decide
